import Mathlib

/-!
# Verification of the Map-Reduce-Chain pipeline core

A shallow embedding of the deterministic pipeline layer of the
Map-Reduce-Chain repository (transcript chunking, map-phase response
parsing, reduce-phase consolidation bookkeeping, confidence clamping and
rule-based validation), together with proofs about the embedded code.

Modelling conventions:
* Python `str` values are modelled as `List Char` (`PyStr`); `str.strip`,
  `str.split`, `str.find`, `str.rfind`, slicing, `in` and `lower` are
  modelled by executable functions below.
* Python `float` values are modelled as rationals (`Rat`); only order and
  clamping matter to the code under verification, never rounding.
* The external text-generation collaborator (`self.llm.invoke`) is an
  input of each embedded function: `CallResult.ok text` for a successful
  call, `CallResult.exn msg` for a call that raises.
* The Python standard-library JSON decoder (`json.loads`) is likewise an
  input, `loads : PyStr -> LoadResult`: the repository treats it as a
  black box, only distinguishing success from `json.JSONDecodeError`.
* Exception rendering (`str(e)`) and numeric rendering inside f-strings
  are abstracted by explicit rendering functions on the model types.
-/

namespace MapReduceChain

/-- Python `str` modelled as a list of characters. -/
abbrev PyStr := List Char

/-- The opening curly bracket character searched for by the REDUCE parser. -/
def lBrace : Char := '\x7b'

/-- The closing curly bracket character searched for by the REDUCE parser. -/
def rBrace : Char := '\x7d'

/-- Python `str.strip()` on one side: drop leading whitespace. -/
def dropWs (s : PyStr) : PyStr := s.dropWhile Char.isWhitespace

/-- Python `str.strip()`: drop whitespace from both ends. -/
def pyStrip (s : PyStr) : PyStr := ((dropWs s).reverse.dropWhile Char.isWhitespace).reverse

/-- Python `str.split("\n")`: split at every newline, keeping empty pieces. -/
def splitOnNl : PyStr → List PyStr
  | [] => [[]]
  | c :: rest =>
    if c = '\n' then [] :: splitOnNl rest
    else List.modifyHead (fun s => c :: s) (splitOnNl rest)

/-- Python `"\n".join(pieces)`. -/
def joinNl : List PyStr → PyStr
  | [] => []
  | [s] => s
  | s :: t :: rest => s ++ '\n' :: joinNl (t :: rest)

/-- Python `line.split(":", 1)`: the text before the first colon and the
    text after it (the whole line and `""` when no colon occurs, a case the
    source guards against with `":" in line`). -/
def splitFirstColon : PyStr → PyStr × PyStr
  | [] => ([], [])
  | c :: rest =>
    if c = ':' then ([], rest)
    else (c :: (splitFirstColon rest).1, (splitFirstColon rest).2)

/-- Python `str.lower()`, character by character. -/
def lowerStr (s : PyStr) : PyStr := s.map Char.toLower

/-- Does `needle` occur at the very start of `hay`? -/
def startsWithStr : PyStr → PyStr → Bool
  | [], _ => true
  | _ :: _, [] => false
  | a :: as, b :: bs => a == b && startsWithStr as bs

/-- Python `needle in hay`: substring containment. -/
def containsSub (needle : PyStr) : PyStr → Bool
  | [] => needle.isEmpty
  | b :: bs => startsWithStr needle (b :: bs) || containsSub needle bs

/-- Python `str.find(c)`: index of the first occurrence, `none` for `-1`. -/
def pyFind (c : Char) : PyStr → Option Nat
  | [] => none
  | a :: rest => if a = c then some 0 else (pyFind c rest).map (· + 1)

/-- Python `str.rfind(c)`: index of the last occurrence, `none` for `-1`. -/
def pyRfind (c : Char) (s : PyStr) : Option Nat :=
  (pyFind c s.reverse).map (fun i => s.length - 1 - i)

/-- Python slice `s[a:b]`. -/
def pySlice (s : PyStr) (a b : Nat) : PyStr := (s.drop a).take (b - a)

/-- Decimal rendering of a natural number, as Python renders an `int`. -/
def natStr (n : Nat) : PyStr := Nat.toDigits 10 n

/-- Rendering of a model number inside an f-string.  Python renders its
    `float`s in decimal; the model renders the rational exactly.  Only the
    fact that the rendered value appears in the text matters to the spec. -/
def ratStr (q : Rat) : PyStr :=
  (if q.num < 0 then ['-'] else []) ++ natStr q.num.natAbs
    ++ (if q.den = 1 then [] else '/' :: natStr q.den)

-- Basic lemmas about the string model --------------------------------------

theorem splitOnNl_ne_nil (s : PyStr) : splitOnNl s ≠ [] := by
  induction s with
  | nil => simp [splitOnNl]
  | cons c rest ih =>
    simp only [splitOnNl]
    split
    · simp
    · cases h : splitOnNl rest with
      | nil => exact absurd h ih
      | cons a l => simp [List.modifyHead]

theorem splitOnNl_eq_cons (rest : PyStr) :
    ∃ a l, splitOnNl rest = a :: l := by
  cases h : splitOnNl rest with
  | nil => exact absurd h (splitOnNl_ne_nil rest)
  | cons a l => exact ⟨a, l, rfl⟩

theorem not_nl_mem_splitOnNl : ∀ (t : PyStr), ∀ s ∈ splitOnNl t, '\n' ∉ s
  | [] => by
    intro s hs
    have h0 : s = [] := by simpa [splitOnNl] using hs
    simp [h0]
  | c :: rest => by
    intro s hs
    have hrec := not_nl_mem_splitOnNl rest
    by_cases hc : c = '\n'
    · have h2 : splitOnNl (c :: rest) = [] :: splitOnNl rest := by
        simp [splitOnNl, hc]
      rw [h2] at hs
      rcases List.mem_cons.mp hs with h1 | h1
      · simp [h1]
      · exact hrec s h1
    · obtain ⟨a, l, h⟩ := splitOnNl_eq_cons rest
      have h2 : splitOnNl (c :: rest) = (c :: a) :: l := by
        simp [splitOnNl, hc, h, List.modifyHead]
      rw [h2] at hs
      rcases List.mem_cons.mp hs with h1 | h1
      · subst h1
        intro hm
        rcases List.mem_cons.mp hm with h3 | h3
        · exact hc h3.symm
        · exact hrec a (h ▸ List.mem_cons_self a l) h3
      · exact hrec s (h ▸ List.mem_cons_of_mem a h1)

theorem splitOnNl_append (s r : PyStr) (hs : '\n' ∉ s) :
    splitOnNl (s ++ r) = List.modifyHead (fun t => s ++ t) (splitOnNl r) := by
  induction s with
  | nil =>
    obtain ⟨a, l, h⟩ := splitOnNl_eq_cons r
    rw [List.nil_append, h]
    rfl
  | cons c s ih =>
    have hc : c ≠ '\n' := fun h => hs (h ▸ List.mem_cons_self c s)
    have hs' : '\n' ∉ s := fun h => hs (List.mem_cons_of_mem c h)
    rw [List.cons_append]
    have h1 : splitOnNl (c :: (s ++ r)) =
        List.modifyHead (fun t => c :: t) (splitOnNl (s ++ r)) := by
      simp [splitOnNl, hc]
    rw [h1, ih hs']
    obtain ⟨a, l, h⟩ := splitOnNl_eq_cons r
    rw [h]
    rfl

theorem splitOnNl_joinNl : ∀ (l : List PyStr), l ≠ [] →
    (∀ s ∈ l, '\n' ∉ s) → splitOnNl (joinNl l) = l
  | [], h, _ => absurd rfl h
  | [s], _, hl => by
    have hs : '\n' ∉ s := hl s (List.mem_singleton_self s)
    have h0 := splitOnNl_append s [] hs
    rw [List.append_nil] at h0
    rw [show joinNl [s] = s from rfl, h0]
    simp [splitOnNl, List.modifyHead]
  | s :: t :: rest, _, hl => by
    have hs : '\n' ∉ s := hl s (List.mem_cons_self s _)
    have ih := splitOnNl_joinNl (t :: rest) (by simp)
      (fun u hu => hl u (List.mem_cons_of_mem s hu))
    rw [show joinNl (s :: t :: rest) = s ++ '\n' :: joinNl (t :: rest) from rfl,
      splitOnNl_append s _ hs]
    have h2 : splitOnNl ('\n' :: joinNl (t :: rest)) =
        [] :: splitOnNl (joinNl (t :: rest)) := by
      simp [splitOnNl]
    rw [h2, ih]
    simp [List.modifyHead]

theorem mem_of_mem_dropWhile {p : Char → Bool} {a : Char} :
    ∀ {l : PyStr}, a ∈ l.dropWhile p → a ∈ l := by
  intro l
  induction l with
  | nil => simp [List.dropWhile]
  | cons b bs ih =>
    simp only [List.dropWhile]
    split
    · exact fun h => List.mem_cons_of_mem b (ih h)
    · exact fun h => h

theorem mem_of_mem_pyStrip {a : Char} {s : PyStr} (h : a ∈ pyStrip s) : a ∈ s := by
  unfold pyStrip dropWs at h
  rw [List.mem_reverse] at h
  have h1 := mem_of_mem_dropWhile h
  rw [List.mem_reverse] at h1
  exact mem_of_mem_dropWhile h1

theorem mem_of_mem_splitFirstColon_fst {a : Char} :
    ∀ {s : PyStr}, a ∈ (splitFirstColon s).1 → a ∈ s := by
  intro s
  induction s with
  | nil => simp [splitFirstColon]
  | cons c rest ih =>
    simp only [splitFirstColon]
    split
    · simp
    · intro h
      rcases List.mem_cons.mp h with h1 | h1
      · exact h1 ▸ List.mem_cons_self c rest
      · exact List.mem_cons_of_mem c (ih h1)

theorem mem_of_mem_splitFirstColon_snd {a : Char} :
    ∀ {s : PyStr}, a ∈ (splitFirstColon s).2 → a ∈ s := by
  intro s
  induction s with
  | nil => simp [splitFirstColon]
  | cons c rest ih =>
    simp only [splitFirstColon]
    split
    · exact fun h => List.mem_cons_of_mem c h
    · exact fun h => List.mem_cons_of_mem c (ih h)

-- Data model (src/models.py) -----------------------------------------------

/-- `ActionItem` from `src/models.py`.  Pydantic defaults: `owner`
    `"Unassigned"`, `deadline`/`source_chunk`/`speaker`/`notes` `None`,
    `confidence` `0.5` with the field constraint `0.0 <= confidence <= 1.0`. -/
structure ActionItem where
  task : PyStr
  owner : PyStr
  deadline : Option PyStr
  confidence : Rat
  source_chunk : Option Int
  speaker : Option PyStr
  notes : Option PyStr
deriving DecidableEq

/-- `MapPhaseOutput` from `src/models.py`.  `processing_time` records wall
    clock and has no effect on control flow; the model pins it to `0`. -/
structure MapPhaseOutput where
  items : List ActionItem
  chunk_index : Nat
  total_chunks : Nat
  processing_time : Rat
  error : Option PyStr
deriving DecidableEq

/-- `ReducePhaseOutput` from `src/models.py`; `total_processing_time` is
    likewise pinned to `0` in the model. -/
structure ReducePhaseOutput where
  items : List ActionItem
  duplicates_removed : Int
  fields_filled : Int
  total_processing_time : Rat
  notes : Option PyStr
deriving DecidableEq

-- External boundaries -------------------------------------------------------

/-- Outcome of one `self.llm.invoke(prompt)` call: the free-text response,
    or an exception carrying its rendered message `str(e)`. -/
inductive CallResult where
  | ok (text : PyStr)
  | exn (msg : PyStr)
deriving DecidableEq

/-- A decoded JSON value, the possible results of `json.loads`. -/
inductive JVal where
  | jnull
  | jbool (b : Bool)
  | jnum (q : Rat)
  | jstr (s : PyStr)
  | jarr (elems : List JVal)
  | jobj (fields : List (PyStr × JVal))

/-- Outcome of `json.loads(text)`: a value, or a `json.JSONDecodeError`
    carrying its rendered message. -/
inductive LoadResult where
  | ok (v : JVal)
  | decodeError (msg : PyStr)

/-- Python `dict.get(k)` on a decoded JSON object. -/
def jlookup (fields : List (PyStr × JVal)) (k : PyStr) : Option JVal :=
  (fields.find? (fun p => p.1 == k)).map (·.2)

/-- Python iteration `for x in v` over a decoded JSON value: a list yields
    its elements, a string its one-character strings, a dict its keys, and
    anything else raises a `TypeError` (whose message is abstracted). -/
def iterItems : JVal → Except PyStr (List JVal)
  | .jarr elems => .ok elems
  | .jstr s => .ok (s.map (fun c => JVal.jstr [c]))
  | .jobj fields => .ok (fields.map (fun p => JVal.jstr p.1))
  | _ => .error ("TypeError: object is not iterable".toList)

/-- Coercion of an optional-string pydantic field: absent or `null` gives
    `None`, a string gives the string, any other value fails validation. -/
def optStrField : Option JVal → Option (Option PyStr)
  | none => some none
  | some .jnull => some none
  | some (.jstr s) => some (some s)
  | some _ => none

/-- `ActionItem(**item_data)`: pydantic validation of one decoded JSON
    object.  `task` must be a string and present; `owner` defaults to
    `"Unassigned"`; `confidence` defaults to `0.5` and must land in
    `[0, 1]`; `source_chunk` must be an integer when present; the failure
    of any field makes the whole coercion fail (the caller drops the
    element). -/
def coerceItem : JVal → Option ActionItem
  | .jobj fields =>
    match jlookup fields ("task".toList) with
    | some (.jstr t) =>
      let ownerR : Option PyStr :=
        match jlookup fields ("owner".toList) with
        | none => some ("Unassigned".toList)
        | some (.jstr s) => some s
        | some _ => none
      let deadlineR := optStrField (jlookup fields ("deadline".toList))
      let confR : Option Rat :=
        match jlookup fields ("confidence".toList) with
        | none => some (mkRat 1 2)
        | some (.jnum q) => if 0 ≤ q ∧ q ≤ 1 then some q else none
        | some _ => none
      let chunkR : Option (Option Int) :=
        match jlookup fields ("source_chunk".toList) with
        | none => some none
        | some .jnull => some none
        | some (.jnum q) => if q.den = 1 then some (some q.num) else none
        | some _ => none
      let speakerR := optStrField (jlookup fields ("speaker".toList))
      let notesR := optStrField (jlookup fields ("notes".toList))
      match ownerR, deadlineR, confR, chunkR, speakerR, notesR with
      | some o, some d, some cf, some sc, some sp, some nt =>
        some ⟨t, o, d, cf, sc, sp, nt⟩
      | _, _, _, _, _, _ => none
    | _ => none
  | _ => none

-- Chunker (src/document_loader.py) ------------------------------------------

/-- One ingested transcript line, modelling the langchain `Document` built
    by `DocumentLoader.ingest` (`page_content` plus the metadata the
    chunker reads back: `speaker`, `line_index`, `source`). -/
structure Doc where
  pageContent : PyStr
  speaker : PyStr
  lineIndex : Nat
  source : PyStr
deriving DecidableEq

/-- One chunk produced by `DocumentLoader.chunk_by_speaker_turns`, carrying
    the metadata the source attaches (`chunk_index`, `speaker`,
    `num_lines`, `source`). -/
structure Chunk where
  content : PyStr
  chunkIndex : Nat
  speaker : Option PyStr
  numLines : Nat
  source : PyStr
deriving DecidableEq

/-- The per-line body of `DocumentLoader.ingest`: skip a blank line; on a
    line containing a colon split once, strip both halves and record the
    speaker; otherwise keep the raw line with speaker `"Unknown"`. -/
def mkDoc (source : PyStr) (i : Nat) (line : PyStr) : Option Doc :=
  if pyStrip line = [] then none
  else if ':' ∈ line then
    some ⟨pyStrip (splitFirstColon line).2, pyStrip (splitFirstColon line).1, i, source⟩
  else some ⟨line, "Unknown".toList, i, source⟩

/-- The `for i, line in enumerate(lines)` loop of `DocumentLoader.ingest`. -/
def ingestAux (source : PyStr) : Nat → List PyStr → List Doc
  | _, [] => []
  | i, line :: rest =>
    match mkDoc source i line with
    | some d => d :: ingestAux source (i + 1) rest
    | none => ingestAux source (i + 1) rest

/-- `DocumentLoader.ingest`: strip the text, split it at newlines and turn
    every non-blank line into a `Doc`. -/
def ingest (text source : PyStr) : List Doc :=
  ingestAux source 0 (splitOnNl (pyStrip text))

/-- The loop of `DocumentLoader.chunk_by_speaker_turns`: flush the current
    chunk when the speaker changes, always append the current line, and
    flush the final in-progress chunk at end of input. -/
def speakerTurnsAux (lastSrc : PyStr) :
    List Doc → List PyStr → Option PyStr → Nat → List Chunk
  | [], cur, curSp, idx =>
    if cur = [] then []
    else [⟨joinNl cur, idx, curSp, cur.length, lastSrc⟩]
  | d :: rest, cur, curSp, idx =>
    if curSp ≠ none ∧ some d.speaker ≠ curSp then
      if cur = [] then
        speakerTurnsAux lastSrc rest [d.pageContent] (some d.speaker) idx
      else
        ⟨joinNl cur, idx, curSp, cur.length, d.source⟩ ::
          speakerTurnsAux lastSrc rest [d.pageContent] (some d.speaker) (idx + 1)
    else
      speakerTurnsAux lastSrc rest (cur ++ [d.pageContent]) (some d.speaker) idx

/-- `DocumentLoader.chunk_by_speaker_turns`. -/
def chunk_by_speaker_turns (documents : List Doc) : List Chunk :=
  match documents with
  | [] => []
  | _ :: _ =>
    speakerTurnsAux (((documents.getLast?).map Doc.source).getD []) documents [] none 0

-- MAP stage (src/map_chain.py) ----------------------------------------------

/-- The bracket-scanning JSON locator shared by `MapChain.extract`
    (`'['`/`']'`) and `ReduceChain.consolidate` (curly brackets):
    `json_start = find(open)`, `json_end = rfind(close) + 1`; when
    `json_start != -1 and json_end > json_start` the slice
    `response_text[json_start:json_end]` is handed to `json.loads`. -/
def locateJson (openC closeC : Char) (s : PyStr) : Option PyStr :=
  match pyFind openC s, pyRfind closeC s with
  | some i, some j => if i < j + 1 then some (pySlice s i (j + 1)) else none
  | _, _ => none

/-- The `error` text `f"JSON parsing failed: {str(e)}"`. -/
def jsonParseFailedNote (e : PyStr) : PyStr := "JSON parsing failed: ".toList ++ e

/-- `MapChain.extract`.  Locate the first `[` .. last `]` slice; feed it to
    `json.loads`; coerce each element of the decoded array independently,
    dropping elements that fail validation; stamp every surviving item's
    `source_chunk` with the chunk index.  A response with no locatable
    array yields zero items (`items_data = []`) on the success path; a
    decode error or a raising collaborator call yields zero items with the
    `error` field set. -/
def extract (loads : PyStr → LoadResult) (resp : CallResult)
    (chunk_index total_chunks : Nat) : MapPhaseOutput :=
  match resp with
  | .exn e => ⟨[], chunk_index, total_chunks, 0, some e⟩
  | .ok response_text =>
    match locateJson '[' ']' response_text with
    | none => ⟨[], chunk_index, total_chunks, 0, none⟩
    | some json_str =>
      match loads json_str with
      | .decodeError e =>
        ⟨[], chunk_index, total_chunks, 0, some (jsonParseFailedNote e)⟩
      | .ok v =>
        match iterItems v with
        | .error e => ⟨[], chunk_index, total_chunks, 0, some e⟩
        | .ok items_data =>
          ⟨items_data.filterMap (fun d =>
              (coerceItem d).map (fun it => { it with source_chunk := some (chunk_index : Int) })),
           chunk_index, total_chunks, 0, none⟩

-- REDUCE stage (src/reduce_chain.py) ----------------------------------------

/-- The `notes` text `f"Consolidated from {len(items)} items"`. -/
def consolidatedNote (n : Nat) : PyStr :=
  "Consolidated from ".toList ++ natStr n ++ " items".toList

/-- The `notes` text `f"Consolidation failed: {str(e)}"`. -/
def consolidationFailedNote (e : PyStr) : PyStr := "Consolidation failed: ".toList ++ e

/-- The `notes` text `f"Error: {str(e)}"` of the outer exception handler. -/
def reduceErrorNote (e : PyStr) : PyStr := "Error: ".toList ++ e

/-- `summary.get(key, 0)` followed by pydantic `int` validation at
    `ReducePhaseOutput` construction: an absent key defaults to `0`, an
    integral number is accepted, anything else raises (pydantic's lax
    string-to-int coercion is not modelled; no claim touches it). -/
def getCounter (summary : List (PyStr × JVal)) (k : PyStr) : Except PyStr Int :=
  match jlookup summary k with
  | none => .ok 0
  | some (.jnum q) =>
    if q.den = 1 then .ok q.num else .error ("ValidationError: int expected".toList)
  | some _ => .error ("ValidationError: int expected".toList)

/-- The success-path tail of `ReduceChain.consolidate`, operating on
    `result_data`: read `result_data["items"]` (default `[]`), coerce each
    element independently, read the `summary` counters, and build the
    `ReducePhaseOutput`.  Any Python exception on this path (`.get` on a
    non-dict, iterating a non-iterable, counter validation) escapes to the
    outer `except Exception` handler, modelled by `.error`. -/
def reduceHappy (n : Nat) (result_data : JVal) : Except PyStr ReducePhaseOutput :=
  match result_data with
  | .jobj fields =>
    let itemsJ := (jlookup fields ("items".toList)).getD (JVal.jarr [])
    match iterItems itemsJ with
    | .error e => .error e
    | .ok items_data =>
      let consolidated := items_data.filterMap coerceItem
      match (jlookup fields ("summary".toList)).getD (JVal.jobj []) with
      | .jobj sf =>
        match getCounter sf ("duplicates_removed".toList),
            getCounter sf ("items_needing_review".toList) with
        | .ok dr, .ok fr => .ok ⟨consolidated, dr, fr, 0, some (consolidatedNote n)⟩
        | .error e, _ => .error e
        | _, .error e => .error e
      | _ => .error ("AttributeError: get".toList)
  | _ => .error ("AttributeError: get".toList)

/-- `ReduceChain.consolidate`.  An empty input returns immediately with
    empty items and zero counters, before any external call.  Otherwise the
    collaborator response is scanned for a first-`..`-last curly-bracket
    slice: when none is found, `result_data` is set to an object holding an
    empty `items` array and the success path continues (so the output item
    list is empty); when `json.loads` raises a decode error the original
    input item list is returned unchanged with a failure note; any other
    exception also falls back to the original items. -/
def consolidate (loads : PyStr → LoadResult) (resp : CallResult)
    (items : List ActionItem) : ReducePhaseOutput :=
  if items.isEmpty then ⟨[], 0, 0, 0, none⟩
  else
    match resp with
    | .exn e => ⟨items, 0, 0, 0, some (reduceErrorNote e)⟩
    | .ok response_text =>
      match locateJson lBrace rBrace response_text with
      | none =>
        match reduceHappy items.length (JVal.jobj [("items".toList, JVal.jarr [])]) with
        | .ok r => r
        | .error e => ⟨items, 0, 0, 0, some (reduceErrorNote e)⟩
      | some json_str =>
        match loads json_str with
        | .decodeError e => ⟨items, 0, 0, 0, some (consolidationFailedNote e)⟩
        | .ok result_data =>
          match reduceHappy items.length result_data with
          | .ok r => r
          | .error e => ⟨items, 0, 0, 0, some (reduceErrorNote e)⟩

-- Confidence stage (src/confidence_chain.py) ---------------------------------

/-- `ConfidenceChain.score_confidence`, given the collaborator's response
    text: strip it, parse it with Python `float(...)` (modelled by the
    `parseFloat` input, `none` for a `ValueError`), clamp a parsed score
    into `[0, 1]`, and fall back to the item's existing confidence when
    parsing fails. -/
def score_confidence (parseFloat : PyStr → Option Rat) (respText : PyStr)
    (item : ActionItem) : Rat :=
  match parseFloat (pyStrip respText) with
  | some score => max 0 (min 1 score)
  | none => item.confidence

/-- The `for i, item in enumerate(items)` loop of
    `ConfidenceChain.score_batch`: each item's confidence is overwritten
    with its own score, in input order (`responses i` is the collaborator's
    response text for the i-th call). -/
def score_batch (parseFloat : PyStr → Option Rat) (responses : Nat → PyStr) :
    Nat → List ActionItem → List ActionItem
  | _, [] => []
  | i, item :: rest =>
    { item with confidence := score_confidence parseFloat (responses i) item } ::
      score_batch parseFloat responses (i + 1) rest

-- Validation stage (src/validation.py) ---------------------------------------

/-- The fixed vague-term list of `ValidationLayer.validate_item`. -/
def vague_terms : List PyStr :=
  ["something".toList, "stuff".toList, "thing".toList, "whatever".toList, "etc".toList]

/-- The rejection reason `f"Confidence too low ({confidence} < {threshold})"`. -/
def confidenceLowReason (c threshold : Rat) : PyStr :=
  "Confidence too low (".toList ++ ratStr c ++ " < ".toList ++ ratStr threshold ++ [')']

/-- `ValidationLayer.validate_item`: reject below-threshold confidence
    first, then an empty or whitespace-only task, then a task containing a
    vague term (case-insensitively); accept otherwise.  The
    unassigned-owner-with-deadline warning is only logged and does not
    change the result. -/
def validate_item (threshold : Rat) (item : ActionItem) : Bool × PyStr :=
  if item.confidence < threshold then
    (false, confidenceLowReason item.confidence threshold)
  else if pyStrip item.task = [] then
    (false, "Task is empty".toList)
  else if vague_terms.any (fun t => containsSub t (lowerStr item.task)) then
    (false, "Task description is too vague".toList)
  else
    (true, "Valid".toList)

/-- `ValidationLayer.validate_batch`: route each item, in order, into the
    valid or the invalid list according to `validate_item`. -/
def validate_batch (threshold : Rat) : List ActionItem → List ActionItem × List ActionItem
  | [] => ([], [])
  | item :: rest =>
    let p := validate_batch threshold rest
    if (validate_item threshold item).1 then (item :: p.1, p.2)
    else (p.1, item :: p.2)

/-- `ValidationLayer.handle_missing_fields`: backfill a blank owner with
    `"Unassigned"`, a missing or blank deadline with `"Not specified"`, and
    normalise falsy notes (`None` or `""`) to `None`. -/
def handle_missing_fields (item : ActionItem) : ActionItem :=
  { item with
    owner := if pyStrip item.owner = [] then "Unassigned".toList else item.owner
    deadline :=
      match item.deadline with
      | none => some ("Not specified".toList)
      | some d => if pyStrip d = [] then some ("Not specified".toList) else some d
    notes :=
      match item.notes with
      | none => none
      | some n => if n = [] then none else some n }

/-- The vague-deadline list of `ValidationLayer.handle_edge_cases`
    (matched case-sensitively, by substring). -/
def vague_deadlines : List PyStr :=
  ["soon".toList, "ASAP".toList, "when possible".toList, "this week".toList]

/-- The literal appended to `notes` for a vague deadline. -/
def clarificationMarker : PyStr := " [DEADLINE NEEDS CLARIFICATION]".toList

/-- The per-item body of `ValidationLayer.handle_edge_cases`: backfill
    missing fields, log (but never act on) ambiguous multi-ownership, and
    append the clarification marker to `notes` when the deadline contains a
    vague phrase (`notes` is first set to `""` when falsy). -/
def processEdgeItem (item0 : ActionItem) : ActionItem :=
  let item := handle_missing_fields item0
  match item.deadline with
  | none => item
  | some d =>
    if d = [] then item
    else if vague_deadlines.any (fun t => containsSub t d) then
      { item with
        notes := some ((match item.notes with
          | none => []
          | some n => if n = [] then [] else n) ++ clarificationMarker) }
    else item

/-- `ValidationLayer.handle_edge_cases`. -/
def handle_edge_cases (items : List ActionItem) : List ActionItem :=
  items.map processEdgeItem

-- Concrete fixtures used by witnesses and counterexamples -------------------

/-- A `json.loads` stand-in that always raises a decode error. -/
def loadsFail : PyStr → LoadResult := fun _ =>
  LoadResult.decodeError ("Expecting value".toList)

/-- A `json.loads` stand-in returning one item object that carries its own
    (to-be-overwritten) `source_chunk`. -/
def loadsArr : PyStr → LoadResult := fun _ =>
  LoadResult.ok (JVal.jarr [JVal.jobj
    [("task".toList, JVal.jstr ("x".toList)),
     ("source_chunk".toList, JVal.jnum (mkRat 99 1))]])

def sampleItem : ActionItem :=
  ⟨"Email the minutes".toList, "Bob".toList, none, mkRat 1 2, none, none, none⟩

def itemVagueLow : ActionItem :=
  ⟨"Review the thing with the team".toList, "Bob".toList, none, 0, none, none, none⟩

def itemVagueHigh : ActionItem :=
  ⟨"Review the thing with the team".toList, "Bob".toList, none, 1, none, none, none⟩

def itemClear : ActionItem :=
  ⟨"Ship the release".toList, "Bob".toList, none, mkRat 2 5, none, none, none⟩

def itemClearLow : ActionItem :=
  ⟨"Ship the release".toList, "Bob".toList, none, mkRat 1 5, none, none, none⟩

def itemAsap : ActionItem :=
  ⟨"Send the report".toList, "Bob".toList, some ("ASAP".toList), mkRat 3 4, none, none, none⟩

def itemBlankOwner : ActionItem :=
  ⟨"Send the report".toList, [], some ("ASAP".toList), 1, none, none, none⟩

def itemStamped : ActionItem :=
  ⟨"x".toList, "Unassigned".toList, none, mkRat 1 2, some 7, none, none⟩

def itemHalf : ActionItem :=
  ⟨"Draft the agenda".toList, "Bob".toList, none, mkRat 1 2, none, none, none⟩

def itemScored : ActionItem := { itemHalf with confidence := mkRat 9 10 }

/-- A `float(...)` stand-in that parses exactly the text `0.9`. -/
def pfW : PyStr → Option Rat := fun s =>
  if s = "0.9".toList then some (mkRat 9 10) else none

def rsW : Nat → PyStr := fun _ => "0.9".toList

/-- Modelled from the spec, for comparison in C2 only: "the transcript's
    non-empty lines", the list the claim expects chunk concatenation to
    reproduce. -/
def nonEmptyLines (text : PyStr) : List PyStr :=
  (splitOnNl (pyStrip text)).filter (fun l => !(pyStrip l).isEmpty)

-- Helper lemmas for the chunker round trip (C2) ------------------------------

theorem mkDoc_pageContent_noNl {source : PyStr} {i : Nat} {line : PyStr} {d : Doc}
    (hline : '\n' ∉ line) (h : mkDoc source i line = some d) :
    '\n' ∉ d.pageContent := by
  unfold mkDoc at h
  split at h
  · exact absurd h (by simp)
  · split at h
    · cases h
      intro hm
      exact hline (mem_of_mem_splitFirstColon_snd (mem_of_mem_pyStrip hm))
    · cases h
      exact hline

theorem ingestAux_noNl (source : PyStr) : ∀ (i : Nat) (lines : List PyStr),
    (∀ l ∈ lines, '\n' ∉ l) → ∀ d ∈ ingestAux source i lines, '\n' ∉ d.pageContent
  | _, [], _ => by simp [ingestAux]
  | i, line :: rest, hl => by
    intro d hd
    have hrest := ingestAux_noNl source (i + 1) rest
      (fun l h => hl l (List.mem_cons_of_mem _ h))
    simp only [ingestAux] at hd
    cases hmk : mkDoc source i line with
    | none =>
      rw [hmk] at hd
      exact hrest d hd
    | some d0 =>
      rw [hmk] at hd
      rcases List.mem_cons.mp hd with h1 | h1
      · subst h1
        exact mkDoc_pageContent_noNl (hl line (List.mem_cons_self _ _)) hmk
      · exact hrest d h1

theorem ingest_noNl (text source : PyStr) :
    ∀ d ∈ ingest text source, '\n' ∉ d.pageContent :=
  ingestAux_noNl source 0 _ (fun l hl => not_nl_mem_splitOnNl _ l hl)

theorem speakerTurnsAux_flatten (lastSrc : PyStr) :
    ∀ (docs : List Doc) (cur : List PyStr) (curSp : Option PyStr) (idx : Nat),
    (∀ s ∈ cur, '\n' ∉ s) → (∀ d ∈ docs, '\n' ∉ d.pageContent) →
    ((speakerTurnsAux lastSrc docs cur curSp idx).map (fun c => splitOnNl c.content)).flatten
      = cur ++ docs.map Doc.pageContent
  | [], cur, curSp, idx, hcur, _ => by
    by_cases h : cur = []
    · simp [speakerTurnsAux, h]
    · simp [speakerTurnsAux, h, splitOnNl_joinNl cur h hcur]
  | d :: rest, cur, curSp, idx, hcur, hdocs => by
    have hd : '\n' ∉ d.pageContent := hdocs d (List.mem_cons_self _ _)
    have hrest : ∀ x ∈ rest, '\n' ∉ x.pageContent :=
      fun x hx => hdocs x (List.mem_cons_of_mem _ hx)
    have hsingle : ∀ s ∈ [d.pageContent], '\n' ∉ s := by
      intro s hs
      rcases List.mem_singleton.mp hs with rfl
      exact hd
    simp only [speakerTurnsAux]
    by_cases h1 : curSp ≠ none ∧ some d.speaker ≠ curSp
    · rw [if_pos h1]
      by_cases h2 : cur = []
      · rw [if_pos h2]
        rw [speakerTurnsAux_flatten lastSrc rest [d.pageContent] (some d.speaker) idx
          hsingle hrest]
        simp [h2]
      · rw [if_neg h2]
        simp only [List.map_cons, List.flatten_cons]
        rw [speakerTurnsAux_flatten lastSrc rest [d.pageContent] (some d.speaker) (idx + 1)
          hsingle hrest]
        rw [splitOnNl_joinNl cur h2 hcur]
        simp
    · rw [if_neg h1]
      rw [speakerTurnsAux_flatten lastSrc rest (cur ++ [d.pageContent]) (some d.speaker) idx
        (by
          intro s hs
          rcases List.mem_append.mp hs with h | h
          · exact hcur s h
          · rcases List.mem_singleton.mp h with rfl
            exact hd)
        hrest]
      simp

-- Claim theorems -------------------------------------------------------------

/-- C1 (code bug evidence): with a non-empty input item list and a
    collaborator response containing no curly-bracket pair, `consolidate`
    returns an empty item list — not the original input list the spec
    requires — and its note reads "Consolidated from 1 items" rather than
    recording a failure. -/
theorem consolidate_no_json_object_empties_items :
    (consolidate loadsFail (.ok ("sorry, cannot".toList)) [sampleItem]).items = []
    ∧ (consolidate loadsFail (.ok ("sorry, cannot".toList)) [sampleItem]).notes
        = some (consolidatedNote 1)
    ∧ ([sampleItem] : List ActionItem) ≠ [] := by decide

/-- C2 counterexample: for the one-line transcript `"Alice: hello"`, the
    concatenation of the chunker's output split back at newlines is
    `["hello"]`, not the transcript's non-empty line `"Alice: hello"` —
    the speaker prefix is stripped into metadata, so lines are altered. -/
theorem chunker_drops_speaker_prefix :
    ((chunk_by_speaker_turns (ingest ("Alice: hello".toList) ("t".toList))).map
        (fun c => splitOnNl c.content)).flatten
      ≠ nonEmptyLines ("Alice: hello".toList) := by decide

/-- C2 (amended): for every transcript, concatenating the output of
    `chunk_by_speaker_turns` over `ingest` in chunk order and splitting the
    result back at newlines reproduces exactly the content parts of the
    transcript's non-blank lines (the text after the first colon, stripped,
    when the line has a colon; the raw line otherwise), each exactly once,
    in original order. -/
theorem chunker_round_trip (text source : PyStr) :
    ((chunk_by_speaker_turns (ingest text source)).map
        (fun c => splitOnNl c.content)).flatten
      = (ingest text source).map Doc.pageContent := by
  cases hdocs : ingest text source with
  | nil => simp [chunk_by_speaker_turns]
  | cons d rest =>
    have hnl : ∀ x ∈ ingest text source, '\n' ∉ x.pageContent := ingest_noNl text source
    rw [hdocs] at hnl
    simp only [chunk_by_speaker_turns]
    rw [speakerTurnsAux_flatten _ (d :: rest) [] none 0 (by simp) hnl]
    simp

/-- C3 counterexample: a collaborator response with no locatable JSON
    array makes `extract` return empty items with `error = none` — the
    `error` field is not populated, contrary to the claim. -/
theorem extract_no_array_leaves_error_none :
    (extract loadsFail (.ok ("no array here".toList)) 0 1).items = []
    ∧ (extract loadsFail (.ok ("no array here".toList)) 0 1).error = none := by decide

/-- C3 (amended): a response with no locatable JSON array yields an empty
    item list with `error = none`; a raising collaborator call, and a
    located slice that fails JSON decoding, yield an empty item list with a
    populated `error` field. -/
theorem extract_failure_handling (loads : PyStr → LoadResult)
    (text bad exnMsg decodeMsg js : PyStr) (ci tc : Nat)
    (h1 : locateJson '[' ']' text = none)
    (h2 : locateJson '[' ']' bad = some js)
    (h3 : loads js = .decodeError decodeMsg) :
    (extract loads (.ok text) ci tc).items = []
    ∧ (extract loads (.ok text) ci tc).error = none
    ∧ (extract loads (.exn exnMsg) ci tc).items = []
    ∧ (extract loads (.exn exnMsg) ci tc).error = some exnMsg
    ∧ (extract loads (.ok bad) ci tc).items = []
    ∧ (extract loads (.ok bad) ci tc).error = some (jsonParseFailedNote decodeMsg) := by
  refine ⟨?_, ?_, rfl, rfl, ?_, ?_⟩ <;> simp [extract, h1, h2, h3]

/-- Witness for C3's theorem at concrete inputs. -/
theorem extract_failure_handling_witness :
    (extract loadsFail (.ok ("plain prose".toList)) 0 1).items = []
    ∧ (extract loadsFail (.ok ("plain prose".toList)) 0 1).error = none
    ∧ (extract loadsFail (.exn ("boom".toList)) 0 1).items = []
    ∧ (extract loadsFail (.exn ("boom".toList)) 0 1).error = some ("boom".toList)
    ∧ (extract loadsFail (.ok ("[ oops ]".toList)) 0 1).items = []
    ∧ (extract loadsFail (.ok ("[ oops ]".toList)) 0 1).error
        = some (jsonParseFailedNote ("Expecting value".toList)) :=
  extract_failure_handling loadsFail ("plain prose".toList) ("[ oops ]".toList)
    ("boom".toList) ("Expecting value".toList) ("[ oops ]".toList) 0 1
    (by decide) (by decide) rfl

/-- C4 counterexample: with the default threshold `0.4` and confidence `0`,
    the item with task "Review the thing with the team" is rejected, but
    with the confidence reason, not a vagueness reason — the first matching
    rule wins, so the reason is not independent of confidence. -/
theorem vague_task_reason_depends_on_confidence :
    (validate_item (mkRat 2 5) itemVagueLow).1 = false
    ∧ (validate_item (mkRat 2 5) itemVagueLow).2
        ≠ "Task description is too vague".toList := by decide

/-- The two rejection reasons can never coincide: the confidence reason
    starts with the character `C`, the vagueness reason with `T`. -/
theorem confidenceLowReason_ne_vague (c t : Rat) :
    confidenceLowReason c t ≠ "Task description is too vague".toList := by
  have h1 : (confidenceLowReason c t).head? = some 'C' := rfl
  intro heq
  rw [heq] at h1
  exact absurd h1 (by decide)

/-- C4 (amended): an item whose task is "Review the thing with the team" is
    rejected by `validate_item` at every confidence and threshold; the
    reason is the fixed vagueness text (which names no term) exactly when
    the confidence is at or above the threshold — below the threshold the
    confidence rule fires first, so the reason equals the
    confidence-too-low reason and is never the vagueness text. -/
theorem vague_task_always_rejected (item : ActionItem) (threshold : Rat)
    (h : item.task = "Review the thing with the team".toList) :
    (validate_item threshold item).1 = false
    ∧ (threshold ≤ item.confidence →
        (validate_item threshold item).2 = "Task description is too vague".toList)
    ∧ (item.confidence < threshold →
        (validate_item threshold item).2
          = confidenceLowReason item.confidence threshold)
    ∧ (item.confidence < threshold →
        (validate_item threshold item).2 ≠ "Task description is too vague".toList) := by
  have hstrip : ¬pyStrip item.task = [] := by
    rw [h]; decide
  have hvague : vague_terms.any (fun t => containsSub t (lowerStr item.task)) = true := by
    rw [h]; decide
  unfold validate_item
  by_cases hc : item.confidence < threshold
  · rw [if_pos hc]
    exact ⟨rfl, fun hle => absurd hc (not_lt.mpr hle),
      fun _ => rfl, fun _ => confidenceLowReason_ne_vague _ _⟩
  · rw [if_neg hc, if_neg hstrip, if_pos hvague]
    exact ⟨rfl, fun _ => rfl, fun hlt => absurd hlt hc, fun hlt => absurd hlt hc⟩

/-- Witness for C4's theorem at threshold `0.4`: the vagueness reason at
    confidence `1`, the confidence reason at confidence `0`. -/
theorem vague_task_always_rejected_witness :
    (validate_item (mkRat 2 5) itemVagueHigh).1 = false
    ∧ (validate_item (mkRat 2 5) itemVagueHigh).2
        = "Task description is too vague".toList
    ∧ (validate_item (mkRat 2 5) itemVagueLow).2
        = confidenceLowReason 0 (mkRat 2 5)
    ∧ (validate_item (mkRat 2 5) itemVagueLow).2
        ≠ "Task description is too vague".toList :=
  ⟨(vague_task_always_rejected itemVagueHigh (mkRat 2 5) rfl).1,
   (vague_task_always_rejected itemVagueHigh (mkRat 2 5) rfl).2.1 (by decide),
   (vague_task_always_rejected itemVagueLow (mkRat 2 5) rfl).2.2.1 (by decide),
   (vague_task_always_rejected itemVagueLow (mkRat 2 5) rfl).2.2.2 (by decide)⟩

/-- C5: for an item with a non-blank, non-vague task, `validate_item`
    rejects strictly below the threshold with a reason built from both the
    confidence and the threshold, and accepts at or above the threshold
    (the boundary value is accepted). -/
theorem validate_item_threshold_gate (item : ActionItem) (threshold : Rat)
    (htask : ¬pyStrip item.task = [])
    (hvague : vague_terms.any (fun t => containsSub t (lowerStr item.task)) = false) :
    (item.confidence < threshold →
      validate_item threshold item
        = (false, confidenceLowReason item.confidence threshold))
    ∧ (threshold ≤ item.confidence →
      validate_item threshold item = (true, "Valid".toList)) := by
  unfold validate_item
  constructor
  · intro hc
    rw [if_pos hc]
  · intro hle
    rw [if_neg (not_lt.mpr hle), if_neg htask, if_neg (by simp [hvague])]

/-- Witness for C5's theorem: acceptance exactly at the threshold, and
    rejection just below it. -/
theorem validate_item_threshold_gate_witness :
    validate_item (mkRat 2 5) itemClear = (true, "Valid".toList)
    ∧ validate_item (mkRat 2 5) itemClearLow
        = (false, confidenceLowReason (mkRat 1 5) (mkRat 2 5)) :=
  ⟨(validate_item_threshold_gate itemClear (mkRat 2 5) (by decide) (by decide)).2
      (by decide),
   (validate_item_threshold_gate itemClearLow (mkRat 2 5) (by decide) (by decide)).1
      (by decide)⟩

/-- Bounds of one clamped or fallen-back confidence score. -/
theorem score_confidence_bounds_aux (pf : PyStr → Option Rat) (txt : PyStr)
    (item : ActionItem) (h0 : 0 ≤ item.confidence) (h1 : item.confidence ≤ 1) :
    0 ≤ score_confidence pf txt item ∧ score_confidence pf txt item ≤ 1 := by
  unfold score_confidence
  cases hp : pf (pyStrip txt) with
  | none => exact ⟨h0, h1⟩
  | some q => exact ⟨le_max_left 0 _, max_le zero_le_one (min_le_left 1 q)⟩

/-- The batch loop preserves the confidence bounds item by item. -/
theorem score_batch_bounds_aux (pf : PyStr → Option Rat) (rs : Nat → PyStr) :
    ∀ (i0 : Nat) (items : List ActionItem),
    (∀ it ∈ items, 0 ≤ it.confidence ∧ it.confidence ≤ 1) →
    ∀ it ∈ score_batch pf rs i0 items, 0 ≤ it.confidence ∧ it.confidence ≤ 1
  | _, [], _ => by simp [score_batch]
  | i0, item :: rest, h => by
    intro it hit
    simp only [score_batch] at hit
    rcases List.mem_cons.mp hit with h1 | h1
    · subst h1
      exact score_confidence_bounds_aux pf (rs i0) item
        (h item (List.mem_cons_self _ _)).1 (h item (List.mem_cons_self _ _)).2
    · exact score_batch_bounds_aux pf rs (i0 + 1) rest
        (fun x hx => h x (List.mem_cons_of_mem _ hx)) it h1

/-- C6: when every input confidence lies in `[0, 1]`, every confidence
    after `score_batch` lies in `[0, 1]`; a parsed score is clamped into
    `[0, 1]` and a parse failure leaves the item's confidence unchanged. -/
theorem confidence_stage_bounds (parseFloat : PyStr → Option Rat)
    (responses : Nat → PyStr) (items : List ActionItem)
    (h : ∀ it ∈ items, 0 ≤ it.confidence ∧ it.confidence ≤ 1) :
    (∀ i0 : Nat, ∀ it ∈ score_batch parseFloat responses i0 items,
        0 ≤ it.confidence ∧ it.confidence ≤ 1)
    ∧ (∀ (item : ActionItem) (txt : PyStr) (q : Rat),
        parseFloat (pyStrip txt) = some q →
          score_confidence parseFloat txt item = max 0 (min 1 q))
    ∧ (∀ (item : ActionItem) (txt : PyStr),
        parseFloat (pyStrip txt) = none →
          score_confidence parseFloat txt item = item.confidence) := by
  refine ⟨fun i0 => score_batch_bounds_aux parseFloat responses i0 items h, ?_, ?_⟩
  · intro item txt q hq
    simp [score_confidence, hq]
  · intro item txt hq
    simp [score_confidence, hq]

/-- Witness for C6's theorem: an out-of-nothing concrete batch whose
    scored confidence stays in bounds. -/
theorem confidence_stage_bounds_witness :
    (0 : Rat) ≤ itemScored.confidence ∧ itemScored.confidence ≤ 1 :=
  (confidence_stage_bounds pfW rsW [itemHalf] (by decide)).1 0 itemScored (by decide)

/-- C7: `consolidate` on the empty item list returns empty items and zero
    counters, independently of the collaborator and the JSON decoder (the
    early return happens before any external call). -/
theorem consolidate_empty_input (loads : PyStr → LoadResult) (resp : CallResult) :
    consolidate loads resp [] = ⟨[], 0, 0, 0, none⟩ := rfl

/-- C8 counterexample: an accepted item with deadline "ASAP", no notes and
    a blank owner has its owner rewritten to "Unassigned" by
    `handle_edge_cases` — the owner field is not left unchanged. -/
theorem handle_edge_cases_backfills_blank_owner :
    (validate_item (mkRat 2 5) itemBlankOwner).1 = true
    ∧ itemBlankOwner.deadline = some ("ASAP".toList)
    ∧ itemBlankOwner.notes = none
    ∧ (handle_edge_cases [itemBlankOwner]).map ActionItem.owner
        ≠ [itemBlankOwner.owner] := by decide

/-- C8 (amended): for an item with deadline "ASAP" and no notes,
    `handle_edge_cases` sets `notes` to exactly `" [DEADLINE NEEDS
    CLARIFICATION]"` (leading space included) and leaves `task` and
    `confidence` unchanged; `owner` is unchanged provided it is not blank
    (a blank owner is backfilled to "Unassigned" first). -/
theorem handle_edge_cases_asap_marker (item : ActionItem)
    (hd : item.deadline = some ("ASAP".toList)) (hn : item.notes = none) :
    (handle_edge_cases [item]).map ActionItem.notes = [some clarificationMarker]
    ∧ (handle_edge_cases [item]).map ActionItem.task = [item.task]
    ∧ (handle_edge_cases [item]).map ActionItem.confidence = [item.confidence]
    ∧ (¬pyStrip item.owner = [] →
        (handle_edge_cases [item]).map ActionItem.owner = [item.owner]) := by
  have hmd : (handle_missing_fields item).deadline = some ("ASAP".toList) := by
    simp only [handle_missing_fields]
    rw [hd]
    decide
  have hmn : (handle_missing_fields item).notes = none := by
    simp only [handle_missing_fields]
    rw [hn]
  have hpe : processEdgeItem item
      = { handle_missing_fields item with notes := some clarificationMarker } := by
    simp only [processEdgeItem]
    rw [hmd, hmn]
    simp only [if_neg (by decide : ¬("ASAP".toList : PyStr) = []),
      if_pos (by decide : (vague_deadlines.any fun t => containsSub t ("ASAP".toList)) = true),
      List.nil_append]
  refine ⟨?_, ?_, ?_, ?_⟩
  · simp [handle_edge_cases, hpe]
  · simp [handle_edge_cases, hpe, handle_missing_fields]
  · simp [handle_edge_cases, hpe, handle_missing_fields]
  · intro ho
    simp [handle_edge_cases, hpe, handle_missing_fields, ho]

/-- Witness for C8's theorem at a concrete accepted item with a non-blank
    owner. -/
theorem handle_edge_cases_asap_marker_witness :
    (handle_edge_cases [itemAsap]).map ActionItem.notes = [some clarificationMarker]
    ∧ (handle_edge_cases [itemAsap]).map ActionItem.owner = [itemAsap.owner] :=
  ⟨(handle_edge_cases_asap_marker itemAsap (by decide) (by decide)).1,
   (handle_edge_cases_asap_marker itemAsap (by decide) (by decide)).2.2.2 (by decide)⟩

/-- C9: every item in the output of `extract` carries `source_chunk` equal
    to the chunk index argument, whatever the collaborator's JSON supplied. -/
theorem extract_stamps_source_chunk (loads : PyStr → LoadResult) (resp : CallResult)
    (chunk_index total_chunks : Nat) (item : ActionItem)
    (h : item ∈ (extract loads resp chunk_index total_chunks).items) :
    item.source_chunk = some (chunk_index : Int) := by
  unfold extract at h
  repeat' split at h
  all_goals first
    | exact absurd h (List.not_mem_nil item)
    | (simp only [List.mem_filterMap] at h
       obtain ⟨d, _, hcoe⟩ := h
       obtain ⟨j, _, rfl⟩ := Option.map_eq_some'.mp hcoe
       rfl)

/-- Witness for C9's theorem: the collaborator supplies `source_chunk` 99,
    the output item carries the chunk index 7. -/
theorem extract_stamps_source_chunk_witness :
    itemStamped.source_chunk = some (7 : Int) :=
  extract_stamps_source_chunk loadsArr (.ok ("[x]".toList)) 7 9 itemStamped (by decide)

/-- C10: `validate_batch` partitions its input: the valid list is the
    in-order filter of the items `validate_item` accepts, the invalid list
    the in-order filter of the items it rejects, and the two lengths sum to
    the input length. -/
theorem validate_batch_partition (threshold : Rat) :
    ∀ items : List ActionItem,
    (validate_batch threshold items).1
        = items.filter (fun it => (validate_item threshold it).1)
    ∧ (validate_batch threshold items).2
        = items.filter (fun it => !(validate_item threshold it).1)
    ∧ (validate_batch threshold items).1.length
        + (validate_batch threshold items).2.length = items.length
  | [] => by simp [validate_batch]
  | item :: rest => by
    obtain ⟨h1, h2, h3⟩ := validate_batch_partition threshold rest
    simp only [validate_batch]
    by_cases hv : (validate_item threshold item).1 = true
    · rw [if_pos hv]
      refine ⟨?_, ?_, ?_⟩
      · simp [List.filter_cons, hv, h1]
      · simp [List.filter_cons, hv, h2]
      · simp only [List.length_cons]
        omega
    · have hv' : (validate_item threshold item).1 = false := by
        cases hb : (validate_item threshold item).1
        · rfl
        · exact absurd hb hv
      rw [if_neg hv]
      refine ⟨?_, ?_, ?_⟩
      · simp [List.filter_cons, hv', h1]
      · simp [List.filter_cons, hv', h2]
      · simp only [List.length_cons]
        omega

end MapReduceChain
